import Mathlib

/-!
Verification of the cloud-cache-factory repository.

The development embeds, in order:
* a model of the JavaScript runtime values the cache accepts (`JsValue`),
* the JSON serialization helpers of `src/utils/serialize.ts`
  (`serialize`, `deserialize`, `isSerializable`), where the platform
  builtins `JSON.stringify` / `JSON.parse` are embedded as an executable
  printer and recursive-descent reader over character lists
  (numbers are modelled as integers; floating point is outside the model),
* the bounded LRU store (the `lru-cache` package the adapter delegates to;
  its code is not part of the repository, so it is modelled from the spec),
* the `MemoryAdapter` of `src/adapters/memory.ts` and the `createCache`
  factory of `src/createCache.ts`.
-/

/-- Model of the JavaScript values relevant to the cache: the
JSON-compatible values, plus `vundef` (undefined / function / symbol:
values with no JSON representation) and `vcyclic` (a self-referential
structure, on which JSON.stringify throws). -/
inductive JsValue where
  | vnull
  | vbool (b : Bool)
  | vnum (n : Int)
  | vstr (s : String)
  | varr (elems : List JsValue)
  | vobj (fields : List (String × JsValue))
  | vundef
  | vcyclic

namespace JsonModel

open JsValue

/-- Opening brace character, kept out of string literals. -/
def lbraceChar : Char := Char.ofNat 123

/-- Closing brace character, kept out of string literals. -/
def rbraceChar : Char := Char.ofNat 125

/-- Lower-case hexadecimal digit, as emitted by JSON.stringify in
control-character escapes. -/
def hexDigit (n : Nat) : Char :=
  if n < 10 then Char.ofNat (48 + n) else Char.ofNat (87 + n)

/-- The escape sequence JSON.stringify emits for one character of a
string: quote and backslash are backslash-escaped, the named control
characters use their short escapes, the remaining control characters
use a `\u00XX` escape, and every other character stands for itself. -/
def escapeChar (c : Char) : List Char :=
  if c = '\"' then ['\\', '\"']
  else if c = '\\' then ['\\', '\\']
  else if c.toNat < 32 then
    if c.toNat = 8 then ['\\', 'b']
    else if c.toNat = 9 then ['\\', 't']
    else if c.toNat = 10 then ['\\', 'n']
    else if c.toNat = 12 then ['\\', 'f']
    else if c.toNat = 13 then ['\\', 'r']
    else ['\\', 'u', '0', '0', hexDigit (c.toNat / 16), hexDigit (c.toNat % 16)]
  else [c]

/-- JSON string-body escaping, character by character. -/
def escapeList : List Char → List Char
  | [] => []
  | c :: cs => escapeChar c ++ escapeList cs

/-- Decimal digits of a natural number, most significant first. -/
def natChars (n : Nat) : List Char :=
  if n = 0 then ['0'] else ((Nat.digits 10 n).reverse.map Nat.digitChar)

/-- Decimal rendering of an integer, as JSON.stringify prints it. -/
def printInt (n : Int) : List Char :=
  if n < 0 then '-' :: natChars n.natAbs else natChars n.toNat

mutual

/-- The JSON text JSON.stringify produces for a value (in element
position, an undefined value prints as null; undefined-valued object
fields are dropped, matching JSON.stringify). -/
def printVal : JsValue → List Char
  | .vnull => ['n', 'u', 'l', 'l']
  | .vbool true => ['t', 'r', 'u', 'e']
  | .vbool false => ['f', 'a', 'l', 's', 'e']
  | .vnum n => printInt n
  | .vstr s => '\"' :: (escapeList s.data ++ ['\"'])
  | .varr [] => ['[', ']']
  | .varr (v :: vs) => '[' :: (printVal v ++ printElemsTail vs)
  | .vobj fs => lbraceChar :: printFieldsFirst fs
  | .vundef => ['n', 'u', 'l', 'l']
  | .vcyclic => ['n', 'u', 'l', 'l']

/-- Remaining array elements, each preceded by a comma, then the
closing bracket. -/
def printElemsTail : List JsValue → List Char
  | [] => [']']
  | v :: vs => ',' :: (printVal v ++ printElemsTail vs)

/-- One object member: quoted key, colon, value. -/
def printField : String × JsValue → List Char
  | (k, v) => '\"' :: (escapeList k.data ++ ('\"' :: ':' :: printVal v))

/-- Object members before any has been printed: undefined-valued
fields are skipped; the first printed member carries no comma. -/
def printFieldsFirst : List (String × JsValue) → List Char
  | [] => [rbraceChar]
  | (_, .vundef) :: fs => printFieldsFirst fs
  | f :: fs => printField f ++ printFieldsTail fs

/-- Object members after the first printed one: undefined-valued
fields are skipped; each printed member is preceded by a comma. -/
def printFieldsTail : List (String × JsValue) → List Char
  | [] => [rbraceChar]
  | (_, .vundef) :: fs => printFieldsTail fs
  | f :: fs => ',' :: (printField f ++ printFieldsTail fs)

end

mutual

/-- Whether a value contains a self-referential structure, on which
JSON.stringify throws a TypeError. -/
def hasCyclic : JsValue → Bool
  | .vcyclic => true
  | .varr vs => hasCyclicList vs
  | .vobj fs => hasCyclicFields fs
  | _ => false

/-- `hasCyclic` over array elements. -/
def hasCyclicList : List JsValue → Bool
  | [] => false
  | v :: vs => hasCyclic v || hasCyclicList vs

/-- `hasCyclic` over object fields. -/
def hasCyclicFields : List (String × JsValue) → Bool
  | [] => false
  | (_, v) :: fs => hasCyclic v || hasCyclicFields fs

end

/-- JSON.stringify: throws on circular structures, returns the JS value
undefined (`none`) on a top-level value with no JSON representation,
and otherwise returns the JSON text. -/
def stringifyJs (v : JsValue) : Except String (Option String) :=
  if hasCyclic v then .error "Converting circular structure to JSON"
  else
    match v with
    | .vundef => .ok none
    | _ => .ok (some (String.mk (printVal v)))

mutual

/-- JSON-compatibility: strings, integers, booleans, null, and nested
arrays/objects thereof (object keys distinct, as in a JS object). -/
def isJson : JsValue → Bool
  | .vnull => true
  | .vbool _ => true
  | .vnum _ => true
  | .vstr _ => true
  | .varr vs => isJsonList vs
  | .vobj fs => dupFreeKeys fs && isJsonFields fs
  | .vundef => false
  | .vcyclic => false

/-- `isJson` over array elements. -/
def isJsonList : List JsValue → Bool
  | [] => true
  | v :: vs => isJson v && isJsonList vs

/-- `isJson` over object field values. -/
def isJsonFields : List (String × JsValue) → Bool
  | [] => true
  | (_, v) :: fs => isJson v && isJsonFields fs

/-- Object keys are pairwise distinct. -/
def dupFreeKeys : List (String × JsValue) → Bool
  | [] => true
  | (k, _) :: fs => fs.all (fun f => f.1 != k) && dupFreeKeys fs

end

/-- Value of a hexadecimal digit character, as accepted by a `\uXXXX`
escape in JSON.parse. -/
def hexVal (c : Char) : Option Nat :=
  if '0' ≤ c ∧ c ≤ '9' then some (c.toNat - 48)
  else if 'a' ≤ c ∧ c ≤ 'f' then some (c.toNat - 87)
  else if 'A' ≤ c ∧ c ≤ 'F' then some (c.toNat - 55)
  else none

/-- Prepend a parsed character to a string-body parse result. -/
def mapCons (c : Char) :
    Except String (List Char × List Char) → Except String (List Char × List Char)
  | .ok (l, rest) => .ok (c :: l, rest)
  | .error e => .error e

mutual

/-- Reader for the body of a JSON string (after the opening quote):
returns the decoded characters and the input after the closing quote. -/
def parseStringBody : List Char → Except String (List Char × List Char)
  | [] => .error "Unterminated string"
  | c :: cs =>
    if c = '\"' then .ok ([], cs)
    else if c = '\\' then readEscape cs
    else mapCons c (parseStringBody cs)
termination_by cs => cs.length

/-- Reader for one escape sequence inside a JSON string (after the
backslash). -/
def readEscape : List Char → Except String (List Char × List Char)
  | [] => .error "Bad escape"
  | e :: cs =>
    if e = '\"' then mapCons '\"' (parseStringBody cs)
    else if e = '\\' then mapCons '\\' (parseStringBody cs)
    else if e = '/' then mapCons '/' (parseStringBody cs)
    else if e = 'b' then mapCons (Char.ofNat 8) (parseStringBody cs)
    else if e = 't' then mapCons (Char.ofNat 9) (parseStringBody cs)
    else if e = 'n' then mapCons (Char.ofNat 10) (parseStringBody cs)
    else if e = 'f' then mapCons (Char.ofNat 12) (parseStringBody cs)
    else if e = 'r' then mapCons (Char.ofNat 13) (parseStringBody cs)
    else if e = 'u' then
      match cs with
      | h1 :: h2 :: h3 :: h4 :: cs2 =>
        match hexVal h1, hexVal h2, hexVal h3, hexVal h4 with
        | some a, some b, some c, some d =>
          mapCons (Char.ofNat (((a * 16 + b) * 16 + c) * 16 + d)) (parseStringBody cs2)
        | _, _, _, _ => .error "Bad unicode escape"
      | _ => .error "Bad unicode escape"
    else .error "Bad escape"
termination_by cs => cs.length

end

/-- Longest prefix of decimal digit characters, with the remainder. -/
def takeDigits : List Char → List Char × List Char
  | [] => ([], [])
  | c :: cs =>
    if c.isDigit then
      let (ds, r) := takeDigits cs
      (c :: ds, r)
    else ([], c :: cs)

/-- Value of a most-significant-first list of digit characters. -/
def digitsVal (ds : List Char) : Nat :=
  ds.foldl (fun a c => 10 * a + (c.toNat - 48)) 0

mutual

/-- Recursive-descent reader for one JSON value (the fragment
JSON.stringify emits: integer numbers, no inter-token whitespace),
fuelled to make the recursion structural. -/
def parseVal : Nat → List Char → Except String (JsValue × List Char)
  | 0, _ => .error "Out of fuel"
  | fuel + 1, cs =>
    match cs with
    | [] => .error "Unexpected end of input"
    | c :: rest =>
      if c.isDigit then
        let (ds, r) := takeDigits (c :: rest)
        .ok (.vnum (Int.ofNat (digitsVal ds)), r)
      else if c = '-' then
        match takeDigits rest with
        | ([], _) => .error "Bad number"
        | (ds, r) => .ok (.vnum (-(Int.ofNat (digitsVal ds))), r)
      else if c = '\"' then
        match parseStringBody rest with
        | .ok (l, r) => .ok (.vstr (String.mk l), r)
        | .error e => .error e
      else if c = '[' then
        match rest with
        | [] => .error "Unterminated array"
        | c2 :: rest2 =>
          if c2 = ']' then .ok (.varr [], rest2)
          else
            match parseVal fuel (c2 :: rest2) with
            | .ok (v, r) =>
              (match parseElemsTail fuel r with
               | .ok (vs, r2) => .ok (.varr (v :: vs), r2)
               | .error e => .error e)
            | .error e => .error e
      else if c = lbraceChar then
        match rest with
        | [] => .error "Unterminated object"
        | c2 :: rest2 =>
          if c2 = rbraceChar then .ok (.vobj [], rest2)
          else
            match parseMember fuel (c2 :: rest2) with
            | .ok (f, r) =>
              (match parseMembersTail fuel r with
               | .ok (fs, r2) => .ok (.vobj (f :: fs), r2)
               | .error e => .error e)
            | .error e => .error e
      else
        match cs with
        | 'n' :: 'u' :: 'l' :: 'l' :: r => .ok (.vnull, r)
        | 't' :: 'r' :: 'u' :: 'e' :: r => .ok (.vbool true, r)
        | 'f' :: 'a' :: 'l' :: 's' :: 'e' :: r => .ok (.vbool false, r)
        | _ => .error "Unexpected token"

/-- Reader for one object member: quoted key, colon, value. -/
def parseMember : Nat → List Char → Except String ((String × JsValue) × List Char)
  | 0, _ => .error "Out of fuel"
  | fuel + 1, cs =>
    match cs with
    | c :: rest =>
      if c = '\"' then
        match parseStringBody rest with
        | .ok (l, r) =>
          (match r with
           | ':' :: r2 =>
             (match parseVal fuel r2 with
              | .ok (v, r3) => .ok ((String.mk l, v), r3)
              | .error e => .error e)
           | _ => .error "Expected colon")
        | .error e => .error e
      else .error "Expected key"
    | [] => .error "Unexpected end of input"

/-- Reader for the array elements after the first one. -/
def parseElemsTail : Nat → List Char → Except String (List JsValue × List Char)
  | 0, _ => .error "Out of fuel"
  | fuel + 1, cs =>
    match cs with
    | [] => .error "Unterminated array"
    | c :: rest =>
      if c = ']' then .ok ([], rest)
      else if c = ',' then
        match parseVal fuel rest with
        | .ok (v, r) =>
          (match parseElemsTail fuel r with
           | .ok (vs, r2) => .ok (v :: vs, r2)
           | .error e => .error e)
        | .error e => .error e
      else .error "Expected comma or bracket"

/-- Reader for the object members after the first one. -/
def parseMembersTail :
    Nat → List Char → Except String (List (String × JsValue) × List Char)
  | 0, _ => .error "Out of fuel"
  | fuel + 1, cs =>
    match cs with
    | [] => .error "Unterminated object"
    | c :: rest =>
      if c = rbraceChar then .ok ([], rest)
      else if c = ',' then
        match parseMember fuel rest with
        | .ok (f, r) =>
          (match parseMembersTail fuel r with
           | .ok (fs, r2) => .ok (f :: fs, r2)
           | .error e => .error e)
        | .error e => .error e
      else .error "Expected comma or brace"

end

/-- JSON.parse (on the fragment the printer emits): read one value and
require the whole input to be consumed. -/
def parseJs (s : String) : Except String JsValue :=
  match parseVal (s.length + 1) s.data with
  | .ok (v, []) => .ok v
  | .ok (_, _ :: _) => .error "Unexpected trailing input"
  | .error e => .error e

end JsonModel

/-- `serialize` from src/utils/serialize.ts: JSON.stringify wrapped so
that a thrown serialization error is re-raised with a uniform message.
`.ok none` models the JS value undefined being returned (JSON.stringify
yields undefined, not a string, for a top-level undefined, function or
symbol — the try/catch does not fire there). -/
def serialize (v : JsValue) : Except String (Option String) :=
  match JsonModel.stringifyJs v with
  | .error e => .error ("Failed to serialize value: " ++ e)
  | .ok r => .ok r

/-- `deserialize` from src/utils/serialize.ts: JSON.parse wrapped so
that a thrown parse error is re-raised with a uniform message. -/
def deserialize (s : String) : Except String JsValue :=
  match JsonModel.parseJs s with
  | .error e => .error ("Failed to deserialize value: " ++ e)
  | .ok v => .ok v

/-- `isSerializable` from src/utils/serialize.ts: true unless
JSON.stringify throws. -/
def isSerializable (v : JsValue) : Bool :=
  match JsonModel.stringifyJs v with
  | .error _ => false
  | .ok _ => true

namespace JsonModel

/-- The input does not begin with a decimal digit. -/
def dfreeB : List Char → Bool
  | [] => true
  | c :: _ => !c.isDigit

theorem stringMk_data (s : String) : String.mk s.data = s := by
  cases s
  rfl

theorem digitChar_isDigit {d : Nat} (h : d < 10) : (Nat.digitChar d).isDigit = true := by
  interval_cases d <;> decide

theorem digitChar_toNat {d : Nat} (h : d < 10) : (Nat.digitChar d).toNat - 48 = d := by
  interval_cases d <;> decide

theorem digitsVal_append_single (ds : List Char) (c : Char) :
    digitsVal (ds ++ [c]) = 10 * digitsVal ds + (c.toNat - 48) := by
  unfold digitsVal
  rw [List.foldl_append]
  rfl

theorem digitsVal_rev_map (L : List Nat) (h : ∀ d ∈ L, d < 10) :
    digitsVal (L.reverse.map Nat.digitChar) = Nat.ofDigits 10 L := by
  induction L with
  | nil => simp [digitsVal, Nat.ofDigits_nil]
  | cons d L ih =>
    rw [List.reverse_cons, List.map_append, List.map_singleton, digitsVal_append_single,
      ih (fun x hx => h x (List.mem_cons_of_mem _ hx)), Nat.ofDigits_cons,
      digitChar_toNat (h d (List.mem_cons_self _ _))]
    omega

theorem natChars_ne_nil (n : Nat) : natChars n ≠ [] := by
  unfold natChars
  split
  · simp
  · simp [Nat.digits_ne_nil_iff_ne_zero, *]

theorem natChars_digits (n : Nat) : ∀ c ∈ natChars n, c.isDigit = true := by
  intro c hc
  unfold natChars at hc
  split at hc
  · simp at hc
    subst hc
    decide
  · simp only [List.mem_map, List.mem_reverse] at hc
    obtain ⟨d, hd, rfl⟩ := hc
    exact digitChar_isDigit (Nat.digits_lt_base (by omega) hd)

theorem digitsVal_natChars (n : Nat) : digitsVal (natChars n) = n := by
  unfold natChars
  split
  · subst n
    decide
  · rw [digitsVal_rev_map _ (fun d hd => Nat.digits_lt_base (by omega) hd),
      Nat.ofDigits_digits]

theorem takeDigits_append {ds rest : List Char} (hds : ∀ c ∈ ds, c.isDigit = true)
    (hrest : dfreeB rest = true) : takeDigits (ds ++ rest) = (ds, rest) := by
  induction ds with
  | nil =>
    cases rest with
    | nil => rfl
    | cons c r =>
      simp only [dfreeB, Bool.not_eq_true'] at hrest
      simp [takeDigits, hrest]
  | cons d ds ih =>
    have hd : d.isDigit = true := hds d (List.mem_cons_self _ _)
    have ih2 := ih (fun c hc => hds c (List.mem_cons_of_mem _ hc))
    simp [takeDigits, hd, ih2]

theorem hexVal_hexDigit {m : Nat} (h : m < 16) : hexVal (hexDigit m) = some m := by
  interval_cases m <;> decide

theorem parseStringBody_escape (l rest : List Char) :
    parseStringBody (escapeList l ++ '\"' :: rest) = .ok (l, rest) := by
  induction l with
  | nil => simp [escapeList, parseStringBody]
  | cons c l ih =>
    rw [escapeList, List.append_assoc]
    by_cases h1 : c = '\"'
    · subst h1
      rw [show escapeChar '\"' = ['\\', '\"'] from by decide]
      simp only [List.cons_append, List.nil_append]
      simp [parseStringBody, mapCons]
      unfold readEscape
      simp [mapCons, ih]
    · by_cases h2 : c = '\\'
      · subst h2
        rw [show escapeChar '\\' = ['\\', '\\'] from by decide]
        simp only [List.cons_append, List.nil_append]
        simp [parseStringBody, mapCons]
        unfold readEscape
        simp [mapCons, ih]
      · by_cases h3 : c.toNat < 32
        · by_cases h4 : c.toNat = 8
          · have hc : c = Char.ofNat 8 := by rw [← h4, Char.ofNat_toNat]
            subst hc
            rw [show escapeChar (Char.ofNat 8) = ['\\', 'b'] from by decide]
            simp only [List.cons_append, List.nil_append]
            simp [parseStringBody, mapCons]
            unfold readEscape
            simp [mapCons, ih]
          · by_cases h5 : c.toNat = 9
            · have hc : c = Char.ofNat 9 := by rw [← h5, Char.ofNat_toNat]
              subst hc
              rw [show escapeChar (Char.ofNat 9) = ['\\', 't'] from by decide]
              simp only [List.cons_append, List.nil_append]
              simp [parseStringBody, mapCons]
              unfold readEscape
              simp [mapCons, ih]
            · by_cases h6 : c.toNat = 10
              · have hc : c = Char.ofNat 10 := by rw [← h6, Char.ofNat_toNat]
                subst hc
                rw [show escapeChar (Char.ofNat 10) = ['\\', 'n'] from by decide]
                simp only [List.cons_append, List.nil_append]
                simp [parseStringBody, mapCons]
                unfold readEscape
                simp [mapCons, ih]
              · by_cases h7 : c.toNat = 12
                · have hc : c = Char.ofNat 12 := by rw [← h7, Char.ofNat_toNat]
                  subst hc
                  rw [show escapeChar (Char.ofNat 12) = ['\\', 'f'] from by decide]
                  simp only [List.cons_append, List.nil_append]
                  simp [parseStringBody, mapCons]
                  unfold readEscape
                  simp [mapCons, ih]
                · by_cases h8 : c.toNat = 13
                  · have hc : c = Char.ofNat 13 := by rw [← h8, Char.ofNat_toNat]
                    subst hc
                    rw [show escapeChar (Char.ofNat 13) = ['\\', 'r'] from by decide]
                    simp only [List.cons_append, List.nil_append]
                    simp [parseStringBody, mapCons]
                    unfold readEscape
                    simp [mapCons, ih]
                  · have hesc : escapeChar c = ['\\', 'u', '0', '0',
                        hexDigit (c.toNat / 16), hexDigit (c.toNat % 16)] := by
                      rw [escapeChar, if_neg h1, if_neg h2, if_pos h3, if_neg h4,
                        if_neg h5, if_neg h6, if_neg h7, if_neg h8]
                    rw [hesc]
                    simp only [List.cons_append, List.nil_append]
                    simp [parseStringBody, mapCons]
                    unfold readEscape
                    simp only [show (('u' : Char) = '\"') = False from by decide,
                      show (('u' : Char) = '\\') = False from by decide,
                      show (('u' : Char) = '/') = False from by decide,
                      show (('u' : Char) = 'b') = False from by decide,
                      show (('u' : Char) = 't') = False from by decide,
                      show (('u' : Char) = 'n') = False from by decide,
                      show (('u' : Char) = 'f') = False from by decide,
                      show (('u' : Char) = 'r') = False from by decide,
                      if_false, ite_false, ite_true, if_pos, eq_self_iff_true]
                    rw [show hexVal '0' = some 0 from by decide,
                      hexVal_hexDigit (show c.toNat / 16 < 16 by omega),
                      hexVal_hexDigit (show c.toNat % 16 < 16 by omega)]
                    simp [mapCons, ih]
                    rw [show c.toNat / 16 * 16 + c.toNat % 16 = c.toNat from by omega,
                      Char.ofNat_toNat]
        · rw [show escapeChar c = [c] from by
            rw [escapeChar, if_neg h1, if_neg h2, if_neg h3]]
          simp only [List.cons_append, List.nil_append]
          simp [parseStringBody, h1, h2, mapCons, ih]

mutual

/-- Fuel sufficient for `parseVal` to read back a printed value. -/
def fuelV : JsValue → Nat
  | .vnull => 1
  | .vbool _ => 1
  | .vnum _ => 1
  | .vstr _ => 1
  | .varr [] => 1
  | .varr (v :: vs) => 1 + fuelV v + fuelT vs
  | .vobj [] => 1
  | .vobj (f :: fs) => 1 + fuelM f + fuelMT fs
  | .vundef => 1
  | .vcyclic => 1

/-- Fuel sufficient for `parseElemsTail` on a printed element tail. -/
def fuelT : List JsValue → Nat
  | [] => 1
  | v :: vs => 1 + fuelV v + fuelT vs

/-- Fuel sufficient for `parseMember` on a printed member. -/
def fuelM : String × JsValue → Nat
  | (_, v) => 1 + fuelV v

/-- Fuel sufficient for `parseMembersTail` on a printed member tail. -/
def fuelMT : List (String × JsValue) → Nat
  | [] => 1
  | f :: fs => 1 + fuelM f + fuelMT fs

end

/-- The characters a printed JSON value can start with. -/
def goodHead (c : Char) : Bool :=
  c.isDigit || c = '-' || c = '\"' || c = '[' || c = lbraceChar
    || c = 'n' || c = 't' || c = 'f'

theorem goodHead_not_rbracket {c : Char} (h : goodHead c = true) : ¬ c = ']' := by
  intro he
  subst he
  revert h
  decide

theorem goodHead_not_rbrace {c : Char} (h : goodHead c = true) : ¬ c = rbraceChar := by
  intro he
  subst he
  revert h
  decide

theorem printVal_head (v : JsValue) (hv : isJson v = true) :
    ∃ c t, printVal v = c :: t ∧ goodHead c = true := by
  cases v with
  | vnull => exact ⟨'n', ['u', 'l', 'l'], by simp [printVal], by decide⟩
  | vbool b =>
    cases b
    · exact ⟨'f', ['a', 'l', 's', 'e'], by simp [printVal], by decide⟩
    · exact ⟨'t', ['r', 'u', 'e'], by simp [printVal], by decide⟩
  | vnum n =>
    by_cases hn : n < 0
    · exact ⟨'-', natChars n.natAbs, by simp [printVal, printInt, hn], by decide⟩
    · cases hcs : natChars n.toNat with
      | nil => exact absurd hcs (natChars_ne_nil _)
      | cons d ds =>
        refine ⟨d, ds, by simp [printVal, printInt, hn, hcs], ?_⟩
        have hd : d.isDigit = true :=
          natChars_digits n.toNat d (hcs ▸ List.mem_cons_self _ _)
        simp [goodHead, hd]
  | vstr s => exact ⟨'\"', escapeList s.data ++ ['\"'], by simp [printVal], by decide⟩
  | varr es =>
    cases es with
    | nil => exact ⟨'[', [']'], by simp [printVal], by decide⟩
    | cons v vs =>
      exact ⟨'[', printVal v ++ printElemsTail vs, by simp [printVal], by decide⟩
  | vobj fs => exact ⟨lbraceChar, printFieldsFirst fs, by simp [printVal], by decide⟩
  | vundef => simp [isJson] at hv
  | vcyclic => simp [isJson] at hv

theorem printFieldsFirst_cons (k : String) (v : JsValue) (fs : List (String × JsValue))
    (hv : isJson v = true) :
    printFieldsFirst ((k, v) :: fs) = printField (k, v) ++ printFieldsTail fs := by
  cases v <;> simp_all [printFieldsFirst, isJson]

theorem printFieldsTail_cons (k : String) (v : JsValue) (fs : List (String × JsValue))
    (hv : isJson v = true) :
    printFieldsTail ((k, v) :: fs) = ',' :: (printField (k, v) ++ printFieldsTail fs) := by
  cases v <;> simp_all [printFieldsTail, isJson]

theorem dfreeB_elemsTail (vs : List JsValue) (rest : List Char) :
    dfreeB (printElemsTail vs ++ rest) = true := by
  cases vs with
  | nil =>
    simp only [printElemsTail, List.cons_append, List.nil_append, dfreeB]
    decide
  | cons v vs =>
    simp only [printElemsTail, List.cons_append, dfreeB]
    decide

theorem dfreeB_fieldsTail (fs : List (String × JsValue)) (rest : List Char) :
    dfreeB (printFieldsTail fs ++ rest) = true := by
  induction fs with
  | nil =>
    simp only [printFieldsTail, List.cons_append, List.nil_append, dfreeB]
    decide
  | cons fd fs ih =>
    obtain ⟨k, v⟩ := fd
    cases v with
    | vundef => simpa [printFieldsTail] using ih
    | vnull =>
      simp only [printFieldsTail, List.cons_append, dfreeB]
      decide
    | vbool b =>
      simp only [printFieldsTail, List.cons_append, dfreeB]
      decide
    | vnum n =>
      simp only [printFieldsTail, List.cons_append, dfreeB]
      decide
    | vstr s =>
      simp only [printFieldsTail, List.cons_append, dfreeB]
      decide
    | varr es =>
      simp only [printFieldsTail, List.cons_append, dfreeB]
      decide
    | vobj fs2 =>
      simp only [printFieldsTail, List.cons_append, dfreeB]
      decide
    | vcyclic =>
      simp only [printFieldsTail, List.cons_append, dfreeB]
      decide

theorem lbrace_not_digit : lbraceChar.isDigit = false := by decide

theorem lbrace_ne_dash : ¬ (lbraceChar = '-') := by decide

theorem lbrace_ne_quote : ¬ (lbraceChar = '\"') := by decide

theorem lbrace_ne_bracket : ¬ (lbraceChar = '[') := by decide

theorem n_ne_lbrace : ¬ (('n' : Char) = lbraceChar) := by decide

theorem t_ne_lbrace : ¬ (('t' : Char) = lbraceChar) := by decide

theorem f_ne_lbrace : ¬ (('f' : Char) = lbraceChar) := by decide

theorem quote_ne_rbrace : ¬ (('\"' : Char) = rbraceChar) := by decide

theorem comma_ne_rbrace : ¬ ((',' : Char) = rbraceChar) := by decide

theorem rbrace_ne_rbracket : ¬ (rbraceChar = ']') := by decide

mutual

theorem roundV (v : JsValue) (hv : isJson v = true) (fuel : Nat) (hf : fuelV v ≤ fuel)
    (rest : List Char) (hr : dfreeB rest = true) :
    parseVal fuel (printVal v ++ rest) = .ok (v, rest) := by
  cases v with
  | vnull =>
    obtain ⟨f, rfl⟩ : ∃ f, fuel = f + 1 := ⟨fuel - 1, by simp [fuelV] at hf; omega⟩
    simp [printVal, parseVal, n_ne_lbrace]
  | vbool b =>
    obtain ⟨f, rfl⟩ : ∃ f, fuel = f + 1 := ⟨fuel - 1, by simp [fuelV] at hf; omega⟩
    cases b <;> simp [printVal, parseVal, t_ne_lbrace, f_ne_lbrace]
  | vnum n =>
    obtain ⟨f, rfl⟩ : ∃ f, fuel = f + 1 := ⟨fuel - 1, by simp [fuelV] at hf; omega⟩
    by_cases hn : n < 0
    · cases hcs : natChars n.natAbs with
      | nil => exact absurd hcs (natChars_ne_nil _)
      | cons d ds =>
        have htd : takeDigits (natChars n.natAbs ++ rest) = (natChars n.natAbs, rest) :=
          takeDigits_append (natChars_digits _) hr
        rw [hcs] at htd
        simp only [List.cons_append] at htd
        simp [printVal, printInt, hn, hcs, parseVal, htd]
        rw [show (d :: ds) = natChars n.natAbs from hcs.symm, digitsVal_natChars]
        omega
    · cases hcs : natChars n.toNat with
      | nil => exact absurd hcs (natChars_ne_nil _)
      | cons d ds =>
        have hd : d.isDigit = true :=
          natChars_digits n.toNat d (hcs ▸ List.mem_cons_self _ _)
        have htd : takeDigits (natChars n.toNat ++ rest) = (natChars n.toNat, rest) :=
          takeDigits_append (natChars_digits _) hr
        rw [hcs] at htd
        simp only [List.cons_append] at htd
        simp [printVal, printInt, hn, hcs, parseVal, hd, htd]
        rw [show (d :: ds) = natChars n.toNat from hcs.symm, digitsVal_natChars]
        omega
  | vstr s =>
    obtain ⟨f, rfl⟩ : ∃ f, fuel = f + 1 := ⟨fuel - 1, by simp [fuelV] at hf; omega⟩
    have hps := parseStringBody_escape s.data rest
    simp [printVal, parseVal, List.append_assoc, hps, stringMk_data]
  | varr es =>
    cases es with
    | nil =>
      obtain ⟨f, rfl⟩ : ∃ f, fuel = f + 1 := ⟨fuel - 1, by simp [fuelV] at hf; omega⟩
      simp [printVal, parseVal]
    | cons v vs =>
      obtain ⟨f, rfl⟩ : ∃ f, fuel = f + 1 := ⟨fuel - 1, by simp [fuelV] at hf; omega⟩
      simp only [fuelV] at hf
      have hf1 : fuelV v ≤ f := by omega
      have hf2 : fuelT vs ≤ f := by omega
      simp only [isJson, isJsonList, Bool.and_eq_true] at hv
      have h1 := roundV v hv.1 f hf1 (printElemsTail vs ++ rest) (dfreeB_elemsTail vs rest)
      have h2 := roundT vs hv.2 f hf2 rest hr
      obtain ⟨c2, t2, hpv, hgood⟩ := printVal_head v (by simp [isJson, hv.1])
      rw [hpv] at h1
      simp only [List.cons_append, List.append_assoc] at h1
      simp [printVal, parseVal, hpv, List.append_assoc, goodHead_not_rbracket hgood,
        h1, h2]
  | vobj fs =>
    cases fs with
    | nil =>
      obtain ⟨f, rfl⟩ : ∃ f, fuel = f + 1 := ⟨fuel - 1, by simp [fuelV] at hf; omega⟩
      simp [printVal, printFieldsFirst, parseVal, lbrace_not_digit, lbrace_ne_dash,
        lbrace_ne_quote, lbrace_ne_bracket]
    | cons fd fs =>
      obtain ⟨k, v⟩ := fd
      obtain ⟨f, rfl⟩ : ∃ f, fuel = f + 1 := ⟨fuel - 1, by simp [fuelV] at hf; omega⟩
      simp only [fuelV, fuelM] at hf
      have hf1 : fuelM (k, v) ≤ f := by simp [fuelM]; omega
      have hf2 : fuelMT fs ≤ f := by omega
      simp only [isJson, isJsonFields, dupFreeKeys, Bool.and_eq_true] at hv
      have hv1 : isJson v = true := hv.2.1
      have hv2 : isJsonFields fs = true := hv.2.2
      have hm := roundM (k, v) hv1 f hf1 (printFieldsTail fs ++ rest)
        (dfreeB_fieldsTail fs rest)
      have hmt := roundMT fs hv2 f hf2 rest hr
      rw [show printVal (.vobj ((k, v) :: fs))
          = lbraceChar :: printFieldsFirst ((k, v) :: fs) from by simp [printVal],
        printFieldsFirst_cons k v fs hv1]
      simp only [printField, List.cons_append, List.append_assoc] at hm ⊢
      simp [parseVal, hm, hmt, lbrace_not_digit, lbrace_ne_dash, lbrace_ne_quote,
        lbrace_ne_bracket, quote_ne_rbrace]
  | vundef => simp [isJson] at hv
  | vcyclic => simp [isJson] at hv

theorem roundT (vs : List JsValue) (hv : isJsonList vs = true) (fuel : Nat)
    (hf : fuelT vs ≤ fuel) (rest : List Char) (hr : dfreeB rest = true) :
    parseElemsTail fuel (printElemsTail vs ++ rest) = .ok (vs, rest) := by
  cases vs with
  | nil =>
    obtain ⟨f, rfl⟩ : ∃ f, fuel = f + 1 := ⟨fuel - 1, by simp [fuelT] at hf; omega⟩
    simp [printElemsTail, parseElemsTail]
  | cons v vs =>
    obtain ⟨f, rfl⟩ : ∃ f, fuel = f + 1 := ⟨fuel - 1, by simp [fuelT] at hf; omega⟩
    simp only [fuelT] at hf
    simp only [isJsonList, Bool.and_eq_true] at hv
    have h1 := roundV v hv.1 f (by omega) (printElemsTail vs ++ rest)
      (dfreeB_elemsTail vs rest)
    have h2 := roundT vs hv.2 f (by omega) rest hr
    simp only [List.append_assoc] at h1
    simp [printElemsTail, parseElemsTail, List.append_assoc, h1, h2]

theorem roundM (fd : String × JsValue) (hv : isJson fd.2 = true) (fuel : Nat)
    (hf : fuelM fd ≤ fuel) (rest : List Char) (hr : dfreeB rest = true) :
    parseMember fuel (printField fd ++ rest) = .ok (fd, rest) := by
  obtain ⟨k, v⟩ := fd
  obtain ⟨f, rfl⟩ : ∃ f, fuel = f + 1 := ⟨fuel - 1, by simp [fuelM] at hf; omega⟩
  simp only [fuelM] at hf
  have h1 := roundV v hv f (by omega) rest hr
  have hps := parseStringBody_escape k.data (':' :: (printVal v ++ rest))
  simp [printField, parseMember, List.append_assoc, List.cons_append, hps, h1,
    stringMk_data]

theorem roundMT (fs : List (String × JsValue)) (hv : isJsonFields fs = true) (fuel : Nat)
    (hf : fuelMT fs ≤ fuel) (rest : List Char) (hr : dfreeB rest = true) :
    parseMembersTail fuel (printFieldsTail fs ++ rest) = .ok (fs, rest) := by
  cases fs with
  | nil =>
    obtain ⟨f, rfl⟩ : ∃ f, fuel = f + 1 := ⟨fuel - 1, by simp [fuelMT] at hf; omega⟩
    simp [printFieldsTail, parseMembersTail]
  | cons fd fs =>
    obtain ⟨k, v⟩ := fd
    obtain ⟨f, rfl⟩ : ∃ f, fuel = f + 1 := ⟨fuel - 1, by simp [fuelMT] at hf; omega⟩
    simp only [fuelMT, fuelM] at hf
    simp only [isJsonFields, Bool.and_eq_true] at hv
    have hm := roundM (k, v) hv.1 f (by simp [fuelM]; omega) (printFieldsTail fs ++ rest)
      (dfreeB_fieldsTail fs rest)
    have hmt := roundMT fs hv.2 f (by omega) rest hr
    rw [printFieldsTail_cons k v fs hv.1]
    simp only [List.append_assoc] at hm
    simp [parseMembersTail, List.append_assoc, List.cons_append, hm, hmt,
      comma_ne_rbrace]

end

mutual

theorem fuelV_le (v : JsValue) (hv : isJson v = true) : fuelV v ≤ (printVal v).length := by
  cases v with
  | vnull => simp [fuelV, printVal]
  | vbool b => cases b <;> simp [fuelV, printVal]
  | vnum n =>
    have h1 : 1 ≤ (printInt n).length := by
      unfold printInt
      split
      · simp
      · exact List.length_pos.mpr (natChars_ne_nil _)
    simpa [fuelV, printVal] using h1
  | vstr s => simp [fuelV, printVal]
  | varr es =>
    cases es with
    | nil => simp [fuelV, printVal]
    | cons v vs =>
      simp only [isJson, isJsonList, Bool.and_eq_true] at hv
      have h1 := fuelV_le v hv.1
      have h2 := fuelT_le vs hv.2
      simp only [fuelV, printVal, List.length_cons, List.length_append]
      omega
  | vobj fs =>
    cases fs with
    | nil => simp [fuelV, printVal, printFieldsFirst]
    | cons fd fs =>
      obtain ⟨k, v⟩ := fd
      simp only [isJson, isJsonFields, Bool.and_eq_true] at hv
      have h1 := fuelM_le (k, v) hv.2.1
      have h2 := fuelMT_le fs hv.2.2
      rw [show printVal (.vobj ((k, v) :: fs))
          = lbraceChar :: printFieldsFirst ((k, v) :: fs) from by simp [printVal],
        printFieldsFirst_cons k v fs hv.2.1]
      simp only [fuelV, List.length_cons, List.length_append]
      omega
  | vundef => simp [isJson] at hv
  | vcyclic => simp [isJson] at hv

theorem fuelT_le (vs : List JsValue) (hv : isJsonList vs = true) :
    fuelT vs ≤ (printElemsTail vs).length := by
  cases vs with
  | nil => simp [fuelT, printElemsTail]
  | cons v vs =>
    simp only [isJsonList, Bool.and_eq_true] at hv
    have h1 := fuelV_le v hv.1
    have h2 := fuelT_le vs hv.2
    simp only [fuelT, printElemsTail, List.length_cons, List.length_append]
    omega

theorem fuelM_le (fd : String × JsValue) (hv : isJson fd.2 = true) :
    fuelM fd ≤ (printField fd).length := by
  obtain ⟨k, v⟩ := fd
  have h1 := fuelV_le v hv
  simp only [fuelM, printField, List.length_cons, List.length_append]
  omega

theorem fuelMT_le (fs : List (String × JsValue)) (hv : isJsonFields fs = true) :
    fuelMT fs ≤ (printFieldsTail fs).length := by
  cases fs with
  | nil => simp [fuelMT, printFieldsTail]
  | cons fd fs =>
    obtain ⟨k, v⟩ := fd
    simp only [isJsonFields, Bool.and_eq_true] at hv
    have h1 := fuelM_le (k, v) hv.1
    have h2 := fuelMT_le fs hv.2
    rw [printFieldsTail_cons k v fs hv.1]
    simp only [fuelMT, List.length_cons, List.length_append]
    omega

end

mutual

theorem isJson_hasCyclic (v : JsValue) (hv : isJson v = true) : hasCyclic v = false := by
  cases v with
  | vnull => simp [hasCyclic]
  | vbool b => simp [hasCyclic]
  | vnum n => simp [hasCyclic]
  | vstr s => simp [hasCyclic]
  | varr es =>
    simp only [isJson] at hv
    simpa [hasCyclic] using isJsonList_hasCyclic es hv
  | vobj fs =>
    simp only [isJson, Bool.and_eq_true] at hv
    simpa [hasCyclic] using isJsonFields_hasCyclic fs hv.2
  | vundef => simp [isJson] at hv
  | vcyclic => simp [isJson] at hv

theorem isJsonList_hasCyclic (vs : List JsValue) (hv : isJsonList vs = true) :
    hasCyclicList vs = false := by
  cases vs with
  | nil => simp [hasCyclicList]
  | cons v vs =>
    simp only [isJsonList, Bool.and_eq_true] at hv
    simp [hasCyclicList, isJson_hasCyclic v hv.1, isJsonList_hasCyclic vs hv.2]

theorem isJsonFields_hasCyclic (fs : List (String × JsValue)) (hv : isJsonFields fs = true) :
    hasCyclicFields fs = false := by
  cases fs with
  | nil => simp [hasCyclicFields]
  | cons fd fs =>
    obtain ⟨k, v⟩ := fd
    simp only [isJsonFields, Bool.and_eq_true] at hv
    simp [hasCyclicFields, isJson_hasCyclic v hv.1, isJsonFields_hasCyclic fs hv.2]

end

end JsonModel

/-- On a JSON-compatible value, `serialize` succeeds and returns the
printed JSON text. -/
theorem serialize_isJson (v : JsValue) (hv : JsonModel.isJson v = true) :
    serialize v = .ok (some (String.mk (JsonModel.printVal v))) := by
  unfold serialize JsonModel.stringifyJs
  rw [JsonModel.isJson_hasCyclic v hv]
  cases v <;> simp_all [JsonModel.isJson]

/-- Reading back the printed JSON text of a JSON-compatible value
recovers the value (the round-trip law for the serialization pair). -/
theorem deserialize_print (v : JsValue) (hv : JsonModel.isJson v = true) :
    deserialize (String.mk (JsonModel.printVal v)) = .ok v := by
  unfold deserialize JsonModel.parseJs
  have h := JsonModel.roundV v hv ((JsonModel.printVal v).length + 1)
    (le_trans (JsonModel.fuelV_le v hv) (by omega)) [] rfl
  rw [List.append_nil] at h
  have hdata : (String.mk (JsonModel.printVal v)).data = JsonModel.printVal v := rfl
  have hlen : (String.mk (JsonModel.printVal v)).length
      = (JsonModel.printVal v).length := rfl
  rw [hdata, hlen, h]

/-- Composition form of the round-trip law: whatever string `serialize`
returns for a JSON-compatible value, `deserialize` maps back to it. -/
theorem deserialize_serialize (v : JsValue) (hv : JsonModel.isJson v = true) :
    ∃ s, serialize v = .ok (some s) ∧ deserialize s = .ok v :=
  ⟨String.mk (JsonModel.printVal v), serialize_isJson v hv, deserialize_print v hv⟩



/-- One cache entry. Modelled from the spec: an Entry of the Bounded LRU
Store is `{key, value: serialized-string, expiresAt, recency-rank}`; the
recency rank is carried by the position in the store's entry list, and
`expiresAt = none` means the entry never expires. -/
structure Entry where
  key : String
  val : String
  expiresAt : Option Nat
deriving DecidableEq

/-- Modelled from the spec: the Bounded LRU Store (the source delegates
to the external `lru-cache` package, whose code is not part of this
repository). `entries` is ordered most-recently-used first; `max` is the
capacity; `ttl` is the constructor-default time-to-live in milliseconds
(0 = none). Time is passed explicitly to operations (`now`, in
milliseconds), embedding the clock. -/
structure LRUCache where
  max : Nat
  ttl : Nat
  entries : List Entry
deriving DecidableEq

/-- Whether an entry's expiration timestamp has passed at time `now`. -/
def Entry.expired (e : Entry) (now : Nat) : Bool :=
  match e.expiresAt with
  | none => false
  | some t => t < now

/-- Key lookup in the entry list. -/
def LRUCache.findEntry (st : LRUCache) (k : String) : Option Entry :=
  st.entries.find? (fun e => e.key == k)

/-- The entry list with every entry for key `k` removed. -/
def LRUCache.removeKey (st : LRUCache) (k : String) : List Entry :=
  st.entries.filter (fun e => e.key != k)

/-- Modelled from the spec: `get(key)` looks up the key; if absent or
expired it returns absent (removing a stale entry as a side effect); if
present and unexpired it marks the entry most-recently-used and returns
its value. -/
def LRUCache.get (st : LRUCache) (now : Nat) (k : String) : Option String × LRUCache :=
  match st.findEntry k with
  | none => (none, st)
  | some e =>
    if e.expired now then (none, { st with entries := st.removeKey k })
    else (some e.val, { st with entries := e :: st.removeKey k })

/-- Modelled from the spec: `set(key, value, ttl)` inserts or replaces
the entry for the key, marks it most-recently-used, and sets its
expiration to `now + ttlMs` (a ttl of 0 means no expiration); if
inserting a new key would exceed the capacity, the least-recently-used
entry is evicted first. -/
def LRUCache.setVal (st : LRUCache) (now : Nat) (k v : String) (ttlMs : Nat) : LRUCache :=
  let e : Entry := ⟨k, v, if ttlMs = 0 then none else some (now + ttlMs)⟩
  let rest := st.entries.filter (fun e2 => e2.key != k)
  let rest2 := if st.max ≤ rest.length then rest.dropLast else rest
  { st with entries := e :: rest2 }

/-- Modelled from the spec: `delete(key)` removes the entry if present;
no-op if absent. -/
def LRUCache.del (st : LRUCache) (k : String) : LRUCache :=
  { st with entries := st.removeKey k }

/-- Modelled from the spec: `has(key)` is true iff an unexpired entry
for the key exists; it does not update recency and does not mutate. -/
def LRUCache.hasKey (st : LRUCache) (now : Nat) (k : String) : Bool :=
  match st.findEntry k with
  | none => false
  | some e => !e.expired now

/-- Modelled from the spec: `clear()` empties the store; configuration
persists. -/
def LRUCache.clear (st : LRUCache) : LRUCache :=
  { st with entries := [] }

/-- `MemoryCacheOptions` from src/types/index.ts: optional `maxSize`
and `ttl` (seconds). -/
structure MemoryCacheOptions where
  maxSize : Option Nat
  ttl : Option Nat
deriving DecidableEq

/-- The `MemoryAdapter` class state (src/adapters/memory.ts): the
wrapped LRU cache and the remembered default TTL in seconds. -/
structure MemoryAdapter where
  cache : LRUCache
  defaultTtl : Nat
deriving DecidableEq

/-- The `MemoryAdapter` constructor: `maxSize` defaults to 1000, `ttl`
to 0; the LRU cache is created with `max = maxSize` and
`ttl = ttl > 0 ? ttl * 1000 : undefined` (0 models undefined: no
store-wide expiration). -/
def MemoryAdapter.create (options : MemoryCacheOptions) : MemoryAdapter :=
  let maxSize := options.maxSize.getD 1000
  let ttl := options.ttl.getD 0
  { cache := { max := maxSize, ttl := if ttl > 0 then ttl * 1000 else 0, entries := [] },
    defaultTtl := ttl }

/-- `MemoryAdapter.get`: read from the LRU cache; `undefined` becomes
null; a deserialization failure deletes the corrupted entry and returns
null instead of propagating the error. -/
def MemoryAdapter.get (a : MemoryAdapter) (now : Nat) (key : String) :
    JsValue × MemoryAdapter :=
  match a.cache.get now key with
  | (none, c) => (.vnull, { a with cache := c })
  | (some s, c) =>
    match deserialize s with
    | .ok v => (v, { a with cache := c })
    | .error _ => (.vnull, { a with cache := c.del key })

/-- `MemoryAdapter.set`: serialize first (a thrown serialization error
propagates before any mutation); `ttl ? ttl * 1000 : undefined` (0 is
falsy) then `ttlMs || defaultTtl * 1000` select the effective TTL in
milliseconds. A serialized result of `undefined` (`none`) removes the
entry, as lru-cache does for an undefined value. -/
def MemoryAdapter.set (a : MemoryAdapter) (now : Nat) (key : String) (value : JsValue)
    (ttl : Option Nat) : Except String Unit × MemoryAdapter :=
  match serialize value with
  | .error e => (.error e, a)
  | .ok none => (.ok (), { a with cache := a.cache.del key })
  | .ok (some sv) =>
    let ttlMs : Option Nat :=
      match ttl with
      | some t => if t = 0 then none else some (t * 1000)
      | none => none
    let eff : Nat :=
      match ttlMs with
      | some m => m
      | none => a.defaultTtl * 1000
    (.ok (), { a with cache := a.cache.setVal now key sv eff })

/-- `MemoryAdapter.delete`: pass-through to the cache. -/
def MemoryAdapter.del (a : MemoryAdapter) (key : String) : MemoryAdapter :=
  { a with cache := a.cache.del key }

/-- `MemoryAdapter.has`: pass-through to the cache; returns the flag
and the (unchanged) adapter state. -/
def MemoryAdapter.has (a : MemoryAdapter) (now : Nat) (key : String) :
    Bool × MemoryAdapter :=
  (a.cache.hasKey now key, a)

/-- `MemoryAdapter.clear`: pass-through to the cache. -/
def MemoryAdapter.clearAll (a : MemoryAdapter) : MemoryAdapter :=
  { a with cache := a.cache.clear }

/-- `MemoryAdapter.getStats`: size and maxSize. -/
def MemoryAdapter.getStats (a : MemoryAdapter) : Nat × Nat :=
  (a.cache.entries.length, a.cache.max)

/-- The adapter instances `createCache` can return. The remote adapters
(Redis, Valkey, Memcached) are network clients, out of scope of the
in-process model; they are represented by the options they were
constructed with. -/
inductive CacheAdapterInst where
  | memory (a : MemoryAdapter)
  | redis (options : MemoryCacheOptions)
  | valkey (options : MemoryCacheOptions)
  | memcached (options : MemoryCacheOptions)
deriving DecidableEq

/-- `CacheConfig` from src/types/index.ts: a provider tag and optional
options. -/
structure CacheConfig where
  provider : String
  options : Option MemoryCacheOptions
deriving DecidableEq

/-- `createCache` from src/createCache.ts: dispatch on the provider
tag (`options = {}` when absent); unrecognized tags throw an error
naming the provider and listing the supported ones. -/
def createCache (config : CacheConfig) : Except String CacheAdapterInst :=
  let options := config.options.getD ⟨none, none⟩
  if config.provider = "memory" then .ok (.memory (MemoryAdapter.create options))
  else if config.provider = "redis" then .ok (.redis options)
  else if config.provider = "valkey" then .ok (.valkey options)
  else if config.provider = "memcached" then .ok (.memcached options)
  else
    .error ("Unsupported cache provider: " ++ config.provider ++
      ". Supported providers are: memory, redis, valkey, memcached")

/-- `createMemoryCache` from src/createCache.ts. -/
def createMemoryCache (options : Option MemoryCacheOptions) : MemoryAdapter :=
  MemoryAdapter.create (options.getD ⟨none, none⟩)

/-- A key lookup never succeeds on a list from which the key was
filtered out. -/
theorem find?_filter_key (l : List Entry) (k : String) :
    (l.filter (fun e => e.key != k)).find? (fun e => e.key == k) = none := by
  refine List.find?_eq_none.mpr ?_
  intro e he
  have := (List.mem_filter.mp he).2
  simp only [bne, Bool.not_eq_true'] at this
  simp [this]

/-- An entry inserted with an effective TTL is not expired at insertion
time (whether the TTL is zero — no expiration — or positive). -/
theorem expired_fresh (k v : String) (now m later : Nat)
    (hlater : m ≠ 0 → later ≤ now + m) :
    Entry.expired ⟨k, v, if m = 0 then none else some (now + m)⟩ later = false := by
  by_cases hm : m = 0
  · simp [hm, Entry.expired]
  · simp only [hm, if_false, ite_false, Entry.expired]
    simp only [decide_eq_false_iff_not, Nat.not_lt]
    exact hlater hm

/-- Unexpired-entry lookup is membership when keys carry no expiration. -/
theorem hasKey_iff_mem_keys (st : LRUCache) (now : Nat)
    (hexp : ∀ e ∈ st.entries, e.expiresAt = none) (k : String) :
    st.hasKey now k = true ↔ k ∈ st.entries.map Entry.key := by
  unfold LRUCache.hasKey LRUCache.findEntry
  cases hfind : st.entries.find? (fun e => e.key == k) with
  | none =>
    simp only [Bool.false_eq_true, false_iff]
    intro hmem
    obtain ⟨e, he, hk⟩ := List.mem_map.mp hmem
    have := List.find?_eq_none.mp hfind e he
    simp [hk] at this
  | some e =>
    have hmem := List.mem_of_find?_eq_some hfind
    have hkey := List.find?_some hfind
    have hnone := hexp e hmem
    simp only [Entry.expired, hnone]
    simp only [Bool.not_false, true_iff]
    exact List.mem_map.mpr ⟨e, hmem, by simpa using hkey⟩

/-- C8 evaluation: at the input `undefined`, `serialize` returns the JS
value undefined — a non-string result — without failing, and the
library's own `isSerializable` even reports the value serializable. -/
theorem C8_serialize_undefined_non_string :
    serialize JsValue.vundef = .ok none ∧ isSerializable JsValue.vundef = true :=
  ⟨rfl, rfl⟩

/-- C9: `createCache` returns the matching adapter for each of the four
valid provider tags, and fails on any other tag with an error that
names the offending provider and lists the four valid providers. -/
theorem C9_create_cache_dispatch (opts : Option MemoryCacheOptions) (p : String)
    (hp : p ∉ (["memory", "redis", "valkey", "memcached"] : List String)) :
    createCache ⟨"memory", opts⟩
        = .ok (.memory (MemoryAdapter.create (opts.getD ⟨none, none⟩)))
    ∧ createCache ⟨"redis", opts⟩ = .ok (.redis (opts.getD ⟨none, none⟩))
    ∧ createCache ⟨"valkey", opts⟩ = .ok (.valkey (opts.getD ⟨none, none⟩))
    ∧ createCache ⟨"memcached", opts⟩ = .ok (.memcached (opts.getD ⟨none, none⟩))
    ∧ createCache ⟨p, opts⟩
        = .error ("Unsupported cache provider: " ++ p ++
            ". Supported providers are: memory, redis, valkey, memcached") := by
  simp only [List.mem_cons, List.mem_singleton, not_or] at hp
  obtain ⟨h1, h2, h3, h4, -⟩ := hp
  unfold createCache
  refine ⟨by simp, by simp, by simp, by simp, ?_⟩
  simp [h1, h2, h3, h4]

/-- C9 witness: the dispatch theorem applied at provider. -/
theorem C9_create_cache_dispatch_witness :
    createCache ⟨"memory", none⟩
        = .ok (.memory (MemoryAdapter.create ⟨none, none⟩))
    ∧ createCache ⟨"unknown", none⟩
        = .error ("Unsupported cache provider: " ++ "unknown" ++
            ". Supported providers are: memory, redis, valkey, memcached") := by
  have h := C9_create_cache_dispatch none "unknown" (by decide)
  exact ⟨h.1, h.2.2.2.2⟩

/-- C5: a value on which serialization throws makes `set` fail with the
serialization error, and the returned store state is exactly the prior
one — no mutation at all, in particular any prior entry for the key is
unchanged. -/
theorem C5_set_nonserializable_atomic (a : MemoryAdapter) (now : Nat) (k : String)
    (v : JsValue) (ttl : Option Nat) (hv : isSerializable v = false) :
    ∃ msg, MemoryAdapter.set a now k v ttl = (.error msg, a) := by
  unfold isSerializable at hv
  cases hsj : JsonModel.stringifyJs v with
  | ok r => rw [hsj] at hv; simp at hv
  | error e =>
    refine ⟨"Failed to serialize value: " ++ e, ?_⟩
    unfold MemoryAdapter.set serialize
    rw [hsj]

/-- C5 witness: a self-referential value at a concrete store. -/
theorem C5_set_nonserializable_atomic_witness :
    isSerializable JsValue.vcyclic = false
    ∧ ∃ msg, MemoryAdapter.set (MemoryAdapter.create ⟨some 2, none⟩) 0 "k"
        JsValue.vcyclic none = (.error msg, MemoryAdapter.create ⟨some 2, none⟩) :=
  ⟨rfl, C5_set_nonserializable_atomic _ 0 "k" JsValue.vcyclic none rfl⟩

/-- After `set(k, v)` with no per-call TTL, `get(k)` at any time within
the store-default TTL (any time at all when that default is zero)
returns the stored value, deserialized back to `v`. -/
theorem set_get_value (a : MemoryAdapter) (now later : Nat) (k : String) (v : JsValue)
    (hv : JsonModel.isJson v = true)
    (hlater : a.defaultTtl * 1000 ≠ 0 → later ≤ now + a.defaultTtl * 1000) :
    (((a.set now k v none).2).get later k).1 = v := by
  obtain ⟨s, hs, hds⟩ := deserialize_serialize v hv
  have hexp := expired_fresh k s now (a.defaultTtl * 1000) later hlater
  simp at hexp
  simp [MemoryAdapter.set, hs, MemoryAdapter.get, LRUCache.get, LRUCache.findEntry,
    LRUCache.setVal, List.find?, hexp, hds]

/-- C2: for every JSON-compatible value (string, integer number,
boolean, null, or nested array/object of those), `set(k, v)` on the
memory adapter succeeds and an immediate `get(k)` returns a value equal
to `v` — the round-trip law through serialize then deserialize. -/
theorem C2_set_get_roundtrip (a : MemoryAdapter) (now : Nat) (k : String) (v : JsValue)
    (hv : JsonModel.isJson v = true) :
    (a.set now k v none).1 = .ok ()
    ∧ (((a.set now k v none).2).get now k).1 = v := by
  obtain ⟨s, hs, hds⟩ := deserialize_serialize v hv
  exact ⟨by simp [MemoryAdapter.set, hs],
    set_get_value a now now k v hv (fun _ => by omega)⟩

/-- C2 witness: the round-trip theorem applied to a nested value
containing an object, an array, a string, numbers, booleans and null. -/
theorem C2_set_get_roundtrip_witness :
    ((MemoryAdapter.create ⟨some 3, none⟩).set 7 "key"
        (.vobj [("a", .varr [.vnum 1, .vstr "x", .vbool true, .vnull]),
                ("b", .vnum (-5))]) none).1 = .ok ()
    ∧ ((((MemoryAdapter.create ⟨some 3, none⟩).set 7 "key"
        (.vobj [("a", .varr [.vnum 1, .vstr "x", .vbool true, .vnull]),
                ("b", .vnum (-5))]) none).2).get 7 "key").1
      = .vobj [("a", .varr [.vnum 1, .vstr "x", .vbool true, .vnull]),
               ("b", .vnum (-5))] :=
  C2_set_get_roundtrip (MemoryAdapter.create ⟨some 3, none⟩) 7 "key" _ rfl

/-- C4 counterexample: on a store built with a positive default TTL of
1 second, `set("k", 42, 0)` succeeds, the value is readable 0.5s later,
but is absent 2s later — the entry produced by an explicit TTL of zero
does expire, contradicting the claim that it never expires regardless
of the store default. -/
theorem C4_ttl_zero_counterexample :
    ((MemoryAdapter.create ⟨some 2, some 1⟩).set 0 "k" (.vnum 42) (some 0)).1 = .ok ()
    ∧ ((((MemoryAdapter.create ⟨some 2, some 1⟩).set 0 "k" (.vnum 42) (some 0)).2).get
        500 "k").1 = .vnum 42
    ∧ ((((MemoryAdapter.create ⟨some 2, some 1⟩).set 0 "k" (.vnum 42) (some 0)).2).get
        2000 "k").1 = .vnull := by
  refine ⟨rfl, ?_, rfl⟩
  rw [show (MemoryAdapter.create ⟨some 2, some 1⟩).set 0 "k" (.vnum 42) (some 0)
      = (MemoryAdapter.create ⟨some 2, some 1⟩).set 0 "k" (.vnum 42) none from rfl]
  exact set_get_value _ 0 500 "k" (.vnum 42) rfl (fun _ => by decide)

/-- C4 amended: an explicit TTL of 0 passed to `set` is treated exactly
like an omitted TTL — the expiration falls back to the store-wide
default; in particular the entry never expires only when the store's
default TTL is zero. -/
theorem C4_ttl_zero_amended (a : MemoryAdapter) (now : Nat) (k : String) (v : JsValue) :
    a.set now k v (some 0) = a.set now k v none
    ∧ (a.defaultTtl = 0 → JsonModel.isJson v = true →
        ∀ later : Nat, (((a.set now k v (some 0)).2).get later k).1 = v) := by
  have h1 : a.set now k v (some 0) = a.set now k v none := by
    unfold MemoryAdapter.set
    cases serialize v with
    | error e => rfl
    | ok o =>
      cases o with
      | none => rfl
      | some s => rfl
  refine ⟨h1, ?_⟩
  intro hd hv later
  rw [h1]
  exact set_get_value a now later k v hv (fun hne => absurd (by simp [hd]) hne)

/-- C4 amended witness: on a store whose default TTL is zero, an entry
set with an explicit TTL of 0 is still readable far in the future. -/
theorem C4_ttl_zero_amended_witness :
    (MemoryAdapter.create ⟨some 2, none⟩).set 3 "k" (.vnum 7) (some 0)
        = (MemoryAdapter.create ⟨some 2, none⟩).set 3 "k" (.vnum 7) none
    ∧ ((((MemoryAdapter.create ⟨some 2, none⟩).set 3 "k" (.vnum 7) (some 0)).2).get
        999999999 "k").1 = .vnum 7 :=
  ⟨(C4_ttl_zero_amended (MemoryAdapter.create ⟨some 2, none⟩) 3 "k" (.vnum 7)).1,
   (C4_ttl_zero_amended (MemoryAdapter.create ⟨some 2, none⟩) 3 "k" (.vnum 7)).2
     rfl rfl 999999999⟩

/-- C10: storing null is indistinguishable from absence: after
`set(k, null)` succeeds, `get(k)` returns null, exactly what `get`
returns on any key that has no entry. -/
theorem C10_null_indistinguishable (a : MemoryAdapter) (now : Nat) (k k2 : String)
    (hk2 : a.cache.findEntry k2 = none) :
    (a.set now k .vnull none).1 = .ok ()
    ∧ (((a.set now k .vnull none).2).get now k).1 = .vnull
    ∧ (a.get now k2).1 = .vnull := by
  refine ⟨?_, set_get_value a now now k .vnull rfl (fun _ => by omega), ?_⟩
  · simp [MemoryAdapter.set, show serialize .vnull = .ok (some "null") from rfl]
  · unfold MemoryAdapter.get LRUCache.get
    rw [hk2]

/-- C10 witness: the null/absence theorem at a concrete empty store. -/
theorem C10_null_indistinguishable_witness :
    ((MemoryAdapter.create ⟨some 2, none⟩).set 0 "n" .vnull none).1 = .ok ()
    ∧ ((((MemoryAdapter.create ⟨some 2, none⟩).set 0 "n" .vnull none).2).get 0 "n").1
        = .vnull
    ∧ ((MemoryAdapter.create ⟨some 2, none⟩).get 0 "other").1 = .vnull :=
  C10_null_indistinguishable (MemoryAdapter.create ⟨some 2, none⟩) 0 "n" "other" rfl

/-- Evaluation of `deserialize` on a non-JSON string. -/
theorem deserialize_xyz :
    deserialize "xyz" = .error ("Failed to deserialize value: " ++ "Unexpected token") := by
  unfold deserialize JsonModel.parseJs
  rw [show ("xyz" : String).length = 3 from rfl,
    show ("xyz" : String).data = ['x', 'y', 'z'] from rfl]
  simp [JsonModel.parseVal, JsonModel.lbraceChar, JsonModel.rbraceChar]

/-- C6: when the stored string for a present, unexpired key fails to
deserialize, `get` returns null instead of surfacing the error, deletes
the corrupted entry, and a subsequent `get` also returns null. -/
theorem C6_corrupt_entry_miss (a : MemoryAdapter) (now : Nat) (k : String) (e : Entry)
    (hfind : a.cache.findEntry k = some e) (hexp : e.expired now = false)
    (hbad : ∃ msg, deserialize e.val = .error msg) :
    (a.get now k).1 = .vnull
    ∧ ((a.get now k).2).cache.findEntry k = none
    ∧ (((a.get now k).2).get now k).1 = .vnull := by
  obtain ⟨msg, hmsg⟩ := hbad
  unfold LRUCache.findEntry at hfind
  have hkey := List.find?_some hfind
  have hget : a.get now k = (.vnull,
      { a with cache := { a.cache with
          entries := a.cache.entries.filter (fun x => x.key != k) } }) := by
    unfold MemoryAdapter.get LRUCache.get LRUCache.findEntry
    rw [hfind]
    simp [hexp, hmsg, LRUCache.del, LRUCache.removeKey, List.filter_filter, bne, hkey]
  refine ⟨by rw [hget], ?_, ?_⟩
  · rw [hget]
    simp only [LRUCache.findEntry]
    exact find?_filter_key a.cache.entries k
  · rw [hget]
    unfold MemoryAdapter.get LRUCache.get LRUCache.findEntry
    rw [show (List.filter (fun x => x.key != k) a.cache.entries).find?
        (fun e => e.key == k) = none from find?_filter_key a.cache.entries k]

/-- C6 witness: a store holding the unparsable string "xyz". -/
theorem C6_corrupt_entry_miss_witness :
    ((⟨⟨2, 0, [⟨"k", "xyz", none⟩]⟩, 0⟩ : MemoryAdapter).get 0 "k").1 = .vnull
    ∧ (((⟨⟨2, 0, [⟨"k", "xyz", none⟩]⟩, 0⟩ : MemoryAdapter).get 0 "k").2).cache.findEntry
        "k" = none
    ∧ ((((⟨⟨2, 0, [⟨"k", "xyz", none⟩]⟩, 0⟩ : MemoryAdapter).get 0 "k").2).get 0 "k").1
        = .vnull :=
  C6_corrupt_entry_miss ⟨⟨2, 0, [⟨"k", "xyz", none⟩]⟩, 0⟩ 0 "k" ⟨"k", "xyz", none⟩
    rfl rfl ⟨_, deserialize_xyz⟩

/-- C7: `has(k)` is true exactly when an unexpired entry for `k` exists
(assuming the store invariant that keys are unique), it returns the
store unchanged, and any sequence of `has` calls leaves the adapter
state — in particular the LRU eviction order — identical. -/
theorem C7_has_no_recency_update (a : MemoryAdapter) (now : Nat) (k : String)
    (hnd : (a.cache.entries.map Entry.key).Nodup) :
    ((a.has now k).1 = true ↔ ∃ e ∈ a.cache.entries, e.key = k ∧ e.expired now = false)
    ∧ (a.has now k).2 = a
    ∧ ∀ ks : List (Nat × String),
        ks.foldl (fun st p => (st.has p.1 p.2).2) a = a := by
  refine ⟨?_, rfl, ?_⟩
  · unfold MemoryAdapter.has LRUCache.hasKey LRUCache.findEntry
    cases hfind : a.cache.entries.find? (fun e => e.key == k) with
    | none =>
      simp only [Bool.false_eq_true, false_iff]
      rintro ⟨e, he, hk, -⟩
      have := List.find?_eq_none.mp hfind e he
      simp [hk] at this
    | some e =>
      have hkey := List.find?_some hfind
      have hmem := List.mem_of_find?_eq_some hfind
      simp only [Bool.not_eq_true']
      constructor
      · intro h
        exact ⟨e, hmem, by simpa using hkey, h⟩
      · rintro ⟨e2, he2, hk2, hx2⟩
        have he2e : e2 = e := by
          apply List.inj_on_of_nodup_map hnd he2 hmem
          rw [hk2]
          have : e.key = k := by simpa using hkey
          rw [this]
        rw [← he2e]
        exact hx2
  · intro ks
    induction ks with
    | nil => rfl
    | cons p ks ih =>
      rw [List.foldl_cons]
      exact ih

/-- C7 witness: a concrete one-entry store probed by `has` calls. -/
theorem C7_has_no_recency_update_witness :
    ((⟨⟨2, 0, [⟨"k", "1", none⟩]⟩, 0⟩ : MemoryAdapter).has 0 "k").1 = true
    ∧ ((⟨⟨2, 0, [⟨"k", "1", none⟩]⟩, 0⟩ : MemoryAdapter).has 0 "k").2
        = (⟨⟨2, 0, [⟨"k", "1", none⟩]⟩, 0⟩ : MemoryAdapter)
    ∧ List.foldl (fun st p => (st.has p.1 p.2).2)
        (⟨⟨2, 0, [⟨"k", "1", none⟩]⟩, 0⟩ : MemoryAdapter) [(0, "k"), (5, "j")]
        = (⟨⟨2, 0, [⟨"k", "1", none⟩]⟩, 0⟩ : MemoryAdapter) := by
  have h := C7_has_no_recency_update ⟨⟨2, 0, [⟨"k", "1", none⟩]⟩, 0⟩ 0 "k" (by decide)
  exact ⟨h.1.mpr ⟨⟨"k", "1", none⟩, by decide, rfl, rfl⟩, h.2.1, h.2.2 [(0, "k"), (5, "j")]⟩

/-- C3: with capacity 2, after inserting A then B, `get(A)` promotes A
to most-recently-used, so inserting a new key C evicts B while A (and
C) remain present. -/
theorem C3_get_promotes_recency (A B C : String) (hAB : A ≠ B) (hAC : A ≠ C)
    (hBC : B ≠ C) :
    ((((((MemoryAdapter.create ⟨some 2, none⟩).set 0 A .vnull none).2.set 0 B
        .vnull none).2.get 0 A).2.set 0 C .vnull none).2.has 0 A).1 = true
    ∧ ((((((MemoryAdapter.create ⟨some 2, none⟩).set 0 A .vnull none).2.set 0 B
        .vnull none).2.get 0 A).2.set 0 C .vnull none).2.has 0 B).1 = false
    ∧ ((((((MemoryAdapter.create ⟨some 2, none⟩).set 0 A .vnull none).2.set 0 B
        .vnull none).2.get 0 A).2.set 0 C .vnull none).2.has 0 C).1 = true := by
  have fAB : (A == B) = false := beq_eq_false_iff_ne.mpr hAB
  have fBA : (B == A) = false := beq_eq_false_iff_ne.mpr (Ne.symm hAB)
  have fAC : (A == C) = false := beq_eq_false_iff_ne.mpr hAC
  have fCA : (C == A) = false := beq_eq_false_iff_ne.mpr (Ne.symm hAC)
  have fBC : (B == C) = false := beq_eq_false_iff_ne.mpr hBC
  have fCB : (C == B) = false := beq_eq_false_iff_ne.mpr (Ne.symm hBC)
  have hser : serialize .vnull = .ok (some "null") := rfl
  have h1 : (MemoryAdapter.create ⟨some 2, none⟩).set 0 A .vnull none
      = (.ok (), ⟨⟨2, 0, [⟨A, "null", none⟩]⟩, 0⟩) := rfl
  rw [h1]
  have h2 : ((⟨⟨2, 0, [⟨A, "null", none⟩]⟩, 0⟩ : MemoryAdapter).set 0 B .vnull none)
      = (.ok (), ⟨⟨2, 0, [⟨B, "null", none⟩, ⟨A, "null", none⟩]⟩, 0⟩) := by
    simp [MemoryAdapter.set, hser, LRUCache.setVal, List.filter, bne, fAB]
  rw [h2]
  have hd1 : deserialize "null" = .ok .vnull := deserialize_print .vnull rfl
  have h3 : ((⟨⟨2, 0, [⟨B, "null", none⟩, ⟨A, "null", none⟩]⟩, 0⟩ : MemoryAdapter).get
        0 A)
      = (.vnull, ⟨⟨2, 0, [⟨A, "null", none⟩, ⟨B, "null", none⟩]⟩, 0⟩) := by
    simp [MemoryAdapter.get, LRUCache.get, LRUCache.findEntry, LRUCache.removeKey,
      List.find?, List.filter, bne, fBA, Entry.expired, hd1]
  rw [h3]
  have h4 : ((⟨⟨2, 0, [⟨A, "null", none⟩, ⟨B, "null", none⟩]⟩, 0⟩ : MemoryAdapter).set
        0 C .vnull none)
      = (.ok (), ⟨⟨2, 0, [⟨C, "null", none⟩, ⟨A, "null", none⟩]⟩, 0⟩) := by
    simp [MemoryAdapter.set, hser, LRUCache.setVal, List.filter, bne, fAC, fBC,
      List.dropLast]
  rw [h4]
  refine ⟨?_, ?_, ?_⟩
  · simp [MemoryAdapter.has, LRUCache.hasKey, LRUCache.findEntry, List.find?, fCA,
      Entry.expired]
  · simp [MemoryAdapter.has, LRUCache.hasKey, LRUCache.findEntry, List.find?, fCB,
      fAB, Entry.expired]
  · simp [MemoryAdapter.has, LRUCache.hasKey, LRUCache.findEntry, List.find?,
      Entry.expired]

/-- C3 witness: the promotion scenario at concrete keys. -/
theorem C3_get_promotes_recency_witness :
    ((((((MemoryAdapter.create ⟨some 2, none⟩).set 0 "a" .vnull none).2.set 0 "b"
        .vnull none).2.get 0 "a").2.set 0 "c" .vnull none).2.has 0 "a").1 = true
    ∧ ((((((MemoryAdapter.create ⟨some 2, none⟩).set 0 "a" .vnull none).2.set 0 "b"
        .vnull none).2.get 0 "a").2.set 0 "c" .vnull none).2.has 0 "b").1 = false
    ∧ ((((((MemoryAdapter.create ⟨some 2, none⟩).set 0 "a" .vnull none).2.set 0 "b"
        .vnull none).2.get 0 "a").2.set 0 "c" .vnull none).2.has 0 "c").1 = true :=
  C3_get_promotes_recency "a" "b" "c" (by decide) (by decide) (by decide)

/-- The entry produced by inserting null under no TTL. -/
def nullEntry (k : String) : Entry := ⟨k, "null", none⟩

/-- The C1 scenario: sequential inserts of distinct keys with no
intervening reads (value null, no per-call TTL, at time 0). -/
def insertNoRead (a : MemoryAdapter) (ks : List String) : MemoryAdapter :=
  ks.foldl (fun st k => (st.set 0 k .vnull none).2) a

/-- One insert of a fresh key under capacity prepends its entry. -/
theorem set_fresh (a : MemoryAdapter) (k : String) (hd : a.defaultTtl = 0)
    (hfresh : ∀ e ∈ a.cache.entries, e.key ≠ k)
    (hlen : a.cache.entries.length < a.cache.max) :
    (a.set 0 k .vnull none).2
      = { a with cache := { a.cache with
          entries := nullEntry k :: a.cache.entries } } := by
  have hser : serialize .vnull = .ok (some "null") := rfl
  have hfilter : a.cache.entries.filter (fun e2 => e2.key != k) = a.cache.entries :=
    List.filter_eq_self.mpr (fun e he => by simpa [bne] using hfresh e he)
  have hnot : ¬ (a.cache.max ≤ a.cache.entries.length) := by omega
  simp [MemoryAdapter.set, hser, LRUCache.setVal, hfilter, hd, hnot, nullEntry]

/-- One insert of a fresh key at capacity evicts the LRU entry (the
last of the list) and prepends the new one. -/
theorem set_evict (a : MemoryAdapter) (k : String) (hd : a.defaultTtl = 0)
    (hfresh : ∀ e ∈ a.cache.entries, e.key ≠ k)
    (hlen : a.cache.max ≤ a.cache.entries.length) :
    (a.set 0 k .vnull none).2
      = { a with cache := { a.cache with
          entries := nullEntry k :: a.cache.entries.dropLast } } := by
  have hser : serialize .vnull = .ok (some "null") := rfl
  have hfilter : a.cache.entries.filter (fun e2 => e2.key != k) = a.cache.entries :=
    List.filter_eq_self.mpr (fun e he => by simpa [bne] using hfresh e he)
  simp [MemoryAdapter.set, hser, LRUCache.setVal, hfilter, hd, hlen, nullEntry]

/-- Folding fresh, pairwise-distinct inserts that fit under the
capacity prepends all their entries in reverse insertion order. -/
theorem insertNoRead_fresh (ks : List String) (a : MemoryAdapter) (hd : a.defaultTtl = 0)
    (hnd : (ks ++ a.cache.entries.map Entry.key).Nodup)
    (hlen : a.cache.entries.length + ks.length ≤ a.cache.max) :
    insertNoRead a ks = { a with cache := { a.cache with
        entries := (ks.map nullEntry).reverse ++ a.cache.entries } } := by
  induction ks generalizing a with
  | nil => simp [insertNoRead]
  | cons k ks ih =>
    have hk0 : k ∉ ks ++ a.cache.entries.map Entry.key := (List.nodup_cons.mp hnd).1
    have hfresh : ∀ e ∈ a.cache.entries, e.key ≠ k := by
      intro e he hk
      exact hk0 (List.mem_append.mpr (Or.inr (List.mem_map.mpr ⟨e, he, hk⟩)))
    have hstep := set_fresh a k hd hfresh (by simp at hlen; omega)
    have hunf : insertNoRead a (k :: ks)
        = insertNoRead ((a.set 0 k .vnull none).2) ks := rfl
    rw [hunf, hstep]
    rw [ih _ (by simpa using hd) ?hnd2 ?hlen2]
    · simp [List.append_assoc]
    case hnd2 =>
      simp only [List.map_cons, nullEntry]
      exact List.perm_middle.nodup_iff.mpr hnd
    case hlen2 =>
      simp only [List.length_cons]
      simp at hlen
      omega

/-- C1: for every capacity `c ≥ 1`, inserting `c + 1` pairwise-distinct
keys (no intervening reads) into a memory store built with
`maxSize = c` leaves exactly `c` entries, the store size stays at most
`c` after every mutating step along the way, the key inserted first is
the one evicted, and every other key remains present. -/
theorem C1_lru_capacity_eviction (c : Nat) (hc : 1 ≤ c) (k0 : String)
    (ks : List String) (hnd : (k0 :: ks).Nodup) (hlen : ks.length = c) :
    (insertNoRead (MemoryAdapter.create ⟨some c, none⟩)
        (k0 :: ks)).cache.entries.length = c
    ∧ (∀ i, ((insertNoRead (MemoryAdapter.create ⟨some c, none⟩)
          ((k0 :: ks).take i)).cache.entries.length ≤ c))
    ∧ ((insertNoRead (MemoryAdapter.create ⟨some c, none⟩) (k0 :: ks)).has 0 k0).1
        = false
    ∧ (∀ k ∈ ks, ((insertNoRead (MemoryAdapter.create ⟨some c, none⟩)
          (k0 :: ks)).has 0 k).1 = true) := by
  rw [show MemoryAdapter.create ⟨some c, none⟩ = (⟨⟨c, 0, []⟩, 0⟩ : MemoryAdapter)
    from rfl]
  have hne : ks ≠ [] := by
    intro h
    rw [h] at hlen
    simp at hlen
    omega
  obtain ⟨init, klast, hks⟩ : ∃ init klast, ks = init ++ [klast] :=
    ⟨ks.dropLast, ks.getLast hne, (List.dropLast_append_getLast hne).symm⟩
  subst hks
  have hinitlen : init.length = c - 1 := by
    simp at hlen
    omega
  have hnd2 : (klast :: k0 :: init).Nodup := by
    have hperm : ((k0 :: init) ++ [klast]).Perm (klast :: (k0 :: init)) :=
      List.perm_append_singleton _ _
    exact hperm.nodup_iff.mp (by simpa using hnd)
  have hklastmem : klast ∉ k0 :: init := (List.nodup_cons.mp hnd2).1
  have hk0init : (k0 :: init).Nodup := (List.nodup_cons.mp hnd2).2
  have hfirst : insertNoRead (⟨⟨c, 0, []⟩, 0⟩ : MemoryAdapter) (k0 :: init)
      = ⟨⟨c, 0, ((k0 :: init).map nullEntry).reverse⟩, 0⟩ := by
    rw [insertNoRead_fresh (k0 :: init) _ rfl (by simpa using hk0init)
      (by simp; omega)]
    simp
  have hsplit : insertNoRead (⟨⟨c, 0, []⟩, 0⟩ : MemoryAdapter)
        (k0 :: (init ++ [klast]))
      = ((insertNoRead (⟨⟨c, 0, []⟩, 0⟩ : MemoryAdapter) (k0 :: init)).set 0 klast
          .vnull none).2 := by
    rw [show k0 :: (init ++ [klast]) = (k0 :: init) ++ [klast] from rfl]
    simp [insertNoRead, List.foldl_append]
  have hkeys : ∀ e ∈ ((k0 :: init).map nullEntry).reverse, e.key ≠ klast := by
    intro e he
    rw [List.mem_reverse] at he
    obtain ⟨x, hx, rfl⟩ := List.mem_map.mp he
    simp only [nullEntry]
    intro hk
    exact hklastmem (hk ▸ hx)
  have hev := set_evict ⟨⟨c, 0, ((k0 :: init).map nullEntry).reverse⟩, 0⟩ klast rfl
      (by simpa using hkeys) (by simp [hinitlen]; omega)
  have hfinal : insertNoRead (⟨⟨c, 0, []⟩, 0⟩ : MemoryAdapter)
        (k0 :: (init ++ [klast]))
      = ⟨⟨c, 0, nullEntry klast :: (init.map nullEntry).reverse⟩, 0⟩ := by
    rw [hsplit, hfirst, hev]
    simp
  have hkeysmap : (nullEntry klast :: (init.map nullEntry).reverse).map Entry.key
      = klast :: init.reverse := by
    simp [nullEntry, List.map_reverse, List.map_map]
    rw [show Entry.key ∘ nullEntry = id from rfl, List.map_id]
  have hexpnone : ∀ e ∈ nullEntry klast :: (init.map nullEntry).reverse,
      e.expiresAt = none := by
    intro e he
    rcases List.mem_cons.mp he with rfl | he2
    · rfl
    · rw [List.mem_reverse] at he2
      obtain ⟨x, -, rfl⟩ := List.mem_map.mp he2
      rfl
  have hiff := fun k => hasKey_iff_mem_keys
    ⟨c, 0, nullEntry klast :: (init.map nullEntry).reverse⟩ 0 hexpnone k
  rw [hkeysmap] at hiff
  refine ⟨?_, ?_, ?_, ?_⟩
  · rw [hfinal]
    simp [hinitlen]
    omega
  · intro i
    by_cases hi : i ≤ c
    · rw [insertNoRead_fresh _ _ rfl
        (by simpa using hnd.sublist (List.take_sublist _ _))
        (by simp [List.length_take]; omega)]
      simp [List.length_take]
      omega
    · rw [List.take_of_length_le (by simp [hinitlen]; omega), hfinal]
      simp [hinitlen]
      omega
  · rw [hfinal]
    rw [show ((⟨⟨c, 0, nullEntry klast :: (init.map nullEntry).reverse⟩, 0⟩ :
        MemoryAdapter).has 0 k0).1
      = (⟨c, 0, nullEntry klast :: (init.map nullEntry).reverse⟩ : LRUCache).hasKey 0 k0
      from rfl]
    rw [Bool.eq_false_iff]
    intro h
    rcases List.mem_cons.mp ((hiff k0).mp h) with h1 | h2
    · exact hklastmem (h1 ▸ List.mem_cons_self _ _)
    · rw [List.mem_reverse] at h2
      exact (List.nodup_cons.mp hk0init).1 h2
  · intro k hk
    rw [hfinal]
    rw [show ((⟨⟨c, 0, nullEntry klast :: (init.map nullEntry).reverse⟩, 0⟩ :
        MemoryAdapter).has 0 k).1
      = (⟨c, 0, nullEntry klast :: (init.map nullEntry).reverse⟩ : LRUCache).hasKey 0 k
      from rfl]
    apply (hiff k).mpr
    rcases List.mem_append.mp hk with hin | hlast
    · exact List.mem_cons_of_mem _ (List.mem_reverse.mpr hin)
    · rw [List.mem_singleton.mp hlast]
      exact List.mem_cons_self _ _

/-- C1 witness: capacity 2 with the three distinct keys a, b, c. -/
theorem C1_lru_capacity_eviction_witness :
    (insertNoRead (MemoryAdapter.create ⟨some 2, none⟩)
        ("a" :: ["b", "c"])).cache.entries.length = 2
    ∧ ((insertNoRead (MemoryAdapter.create ⟨some 2, none⟩)
        (("a" :: ["b", "c"]).take 2)).cache.entries.length ≤ 2)
    ∧ ((insertNoRead (MemoryAdapter.create ⟨some 2, none⟩)
        ("a" :: ["b", "c"])).has 0 "a").1 = false
    ∧ ((insertNoRead (MemoryAdapter.create ⟨some 2, none⟩)
        ("a" :: ["b", "c"])).has 0 "b").1 = true := by
  have h := C1_lru_capacity_eviction 2 (by decide) "a" ["b", "c"] (by decide) rfl
  exact ⟨h.1, h.2.1 2, h.2.2.1, h.2.2.2 "b" (by decide)⟩
